import Mathlib

/-!
Shallow embedding of the concurrent bulk-status-transition engine of the
task-manager backend (internal/service/task_service.go, BulkComplete) together
with the store operations it uses (internal/repository/task_repository.go,
FindByID and Update).

Modelling conventions:
* The relational store is a `List Task`; the `tasks.id` column is
  `SERIAL PRIMARY KEY`, so stores of interest have pairwise-distinct ids
  (hypothesis `(store.map Task.id).Nodup` where needed).
* `strconv.Atoi` is modelled by `atoi` (optional sign followed by decimal
  digits, anything else fails).
* The repository's `FindByID` sends the string identifier to a query
  `WHERE id = $1` against an integer column; a non-numeric identifier makes
  the query fail, which the model folds into the parse-then-lookup failure.
* Timestamps are integers; `time.Now()` inside the call is the parameter
  `now`, assumed larger than every pre-call `updated_at` where a claim
  needs strict growth.
* Workers run concurrently; each identifier is fetched, checked and written
  as one store-serialized step.  The serialization order (equal to the order
  in which outcomes are sent on the results channel) is the parameter
  `order`, a permutation of the request's identifier list.
* A Go channel that has been closed and drained yields the zero value
  (`nil` error, here `none`) on every further receive; `recv` models this.
-/

namespace TaskManager

/-- Task status enumeration (`domain.TaskStatus`): todo, in_progress, done. -/
inductive TaskStatus where
  | todo
  | inProgress
  | done
  deriving DecidableEq, Repr

/-- A task row (`domain.Task`): id, owning user id, title, description,
status and timestamps. -/
structure Task where
  id : Int
  userID : Int
  title : String
  description : String
  status : TaskStatus
  createdAt : Int
  updatedAt : Int
  deriving DecidableEq, Repr

/-- The bulk response DTO (`dto.BulkCompleteResponse`). -/
structure BulkCompleteResponse where
  successCount : Nat
  failedCount : Nat
  failedIDs : List String
  deriving DecidableEq, Repr

/-- Decimal digit run parser used by `atoi`; fails on any non-digit. -/
def parseNatDigits : List Char → Nat → Option Nat
  | [], acc => some acc
  | c :: rest, acc =>
      if c.isDigit then parseNatDigits rest (acc * 10 + (c.toNat - 48)) else none

/-- Model of Go's `strconv.Atoi`: optional sign, then decimal digits only. -/
def atoi (s : String) : Option Int :=
  match s.toList with
  | [] => none
  | '+' :: rest =>
      if rest.isEmpty then none else (parseNatDigits rest 0).map Int.ofNat
  | '-' :: rest =>
      if rest.isEmpty then none
      else (parseNatDigits rest 0).map (fun n => -(Int.ofNat n))
  | cs => (parseNatDigits cs 0).map Int.ofNat

/-- Repository `FindByID`: the identifier is interpreted numerically by the
store (`WHERE id = $1` on an integer column); a malformed identifier fails,
a missing row fails, otherwise the row is returned. -/
def FindByID (store : List Task) (id : String) : Except String Task :=
  match atoi id with
  | none => Except.error ("failed to find task by id: " ++ id)
  | some idInt =>
      match store.find? (fun row => row.id == idInt) with
      | none => Except.error ("task not found with id: " ++ id)
      | some task => Except.ok task

/-- Service `GetByID`: parse the user id, fetch the task, then verify
ownership before returning it. -/
def GetByID (store : List Task) (taskID : String) (userID : String) :
    Except String Task :=
  match atoi userID with
  | none => Except.error "invalid user ID"
  | some userIDInt =>
      match FindByID store taskID with
      | Except.error e => Except.error ("failed to find task: " ++ e)
      | Except.ok task =>
          if task.userID = userIDInt then Except.ok task
          else Except.error "access denied: task does not belong to user"

/-- Repository `Update`: `UPDATE tasks SET title, description, status,
updated_at WHERE id = $5 AND user_id = $6`; zero affected rows is an error. -/
def Update (store : List Task) (t : Task) : List Task × Except String Unit :=
  let matched := store.countP (fun row => row.id == t.id && row.userID == t.userID)
  if matched = 0 then
    (store, Except.error "task not found or not owned by user")
  else
    (store.map (fun row =>
        if row.id == t.id && row.userID == t.userID then
          { row with title := t.title, description := t.description,
                     status := t.status, updatedAt := t.updatedAt }
        else row),
     Except.ok ())

/-- The worker-pool size constant of `BulkComplete` (`numWorkers := 5`). -/
def numWorkers : Nat := 5

/-- The number of worker goroutines the spawn loop starts for a given
request: the loop bound is the constant `numWorkers`, whatever the input. -/
def numWorkersFor (_taskIDs : List String) : Nat := numWorkers

/-- Capacity of the buffered results channel:
`make(chan error, len(req.TaskIDs))`. -/
def resultsChanCapacity (taskIDs : List String) : Nat := taskIDs.length

/-- The updated copy a worker builds before persisting: id and owner from the
request, title and description copied from the fetched task, status forced to
done, a fresh update timestamp, and the Go zero value for `CreatedAt`. -/
def mkDoneTask (taskIDInt uid : Int) (existingTask : Task) (now : Int) : Task :=
  { id := taskIDInt, userID := uid,
    title := existingTask.title,
    description := existingTask.description,
    status := TaskStatus.done,
    createdAt := 0, updatedAt := now }

/-- One worker iteration for one identifier: ownership-checked fetch, numeric
coercion of the identifier, then a status-only update preserving title and
description.  Returns the store after the step, the outcome sent on the
results channel (`none` = success), and the list of update calls issued. -/
def processOne (userID : String) (uid : Int) (now : Int)
    (store : List Task) (taskID : String) :
    List Task × Option String × List Task :=
  match GetByID store taskID userID with
  | Except.error e => (store, some ("task " ++ taskID ++ ": " ++ e), [])
  | Except.ok existingTask =>
      match atoi taskID with
      | none => (store, some ("invalid task ID " ++ taskID), [])
      | some taskIDInt =>
          match (Update store (mkDoneTask taskIDInt uid existingTask now)).2 with
          | Except.error _ =>
              ((Update store (mkDoneTask taskIDInt uid existingTask now)).1,
               some ("failed to update task " ++ taskID),
               [mkDoneTask taskIDInt uid existingTask now])
          | Except.ok _ =>
              ((Update store (mkDoneTask taskIDInt uid existingTask now)).1,
               none, [mkDoneTask taskIDInt uid existingTask now])

/-- The worker phase: the identifiers are processed in store-serialization
order; outcomes are listed in the order they are sent on the results
channel.  Also accumulates every update call issued. -/
def processAll (userID : String) (uid : Int) (now : Int) :
    List Task → List String → List Task × List (Option String) × List Task
  | store, [] => (store, [], [])
  | store, taskID :: rest =>
      let r1 := processOne userID uid now store taskID
      let r2 := processAll userID uid now r1.1 rest
      (r2.1, r1.2.1 :: r2.2.1, r1.2.2 ++ r2.2.2)

/-- Receive from the results channel after it has been closed: the buffered
outcomes come out in order, and once drained every receive returns the zero
value `none` immediately. -/
def recv (ch : List (Option String)) : Option String × List (Option String) :=
  match ch with
  | [] => (none, [])
  | o :: rest => (o, rest)

/-- The result-aggregation loop of `BulkComplete`: for each input position it
receives one outcome, buckets the identifier by it, and — whenever the
position is not the last — performs one extra receive whose value is
discarded.  Returns (successCount, failedIDs, number of receives). -/
def collectResults : List String → List (Option String) → Nat × List String × Nat
  | [], _ => (0, [], 0)
  | taskID :: rest, ch =>
      let r := recv ch
      let ch2 := if rest.isEmpty then r.2 else (recv r.2).2
      let extra := if rest.isEmpty then 0 else 1
      let acc := collectResults rest ch2
      match r.1 with
      | none => (acc.1 + 1, acc.2.1, 1 + extra + acc.2.2)
      | some _ => (acc.1, taskID :: acc.2.1, 1 + extra + acc.2.2)

/-- Service `BulkComplete`: rejects an empty identifier list, parses the user
id, runs the worker phase, closes the channels and aggregates the results.
Returns the response (or the whole-batch error) together with the store
after the call. -/
def BulkComplete (store : List Task) (userID : String) (taskIDs : List String)
    (order : List String) (now : Int) :
    Except String BulkCompleteResponse × List Task :=
  if taskIDs.isEmpty then
    (Except.error "no task IDs provided", store)
  else
    match atoi userID with
    | none => (Except.error "invalid user ID", store)
    | some userIDInt =>
        (Except.ok
          { successCount :=
              (collectResults taskIDs
                (processAll userID userIDInt now store order).2.1).1,
            failedCount :=
              (collectResults taskIDs
                (processAll userID userIDInt now store order).2.1).2.1.length,
            failedIDs :=
              (collectResults taskIDs
                (processAll userID userIDInt now store order).2.1).2.1 },
         (processAll userID userIDInt now store order).1)

/-! Lemmas about the aggregation loop. -/

theorem recv_eq (ch : List (Option String)) :
    recv ch = (ch.getD 0 none, ch.tail) := by
  cases ch <;> simp [recv, List.getD]

theorem collect_nil (ch : List (Option String)) :
    collectResults [] ch = (0, [], 0) := rfl

theorem isEmpty_false_of_ne {α : Type} (l : List α) (h : l ≠ []) :
    l.isEmpty = false := by
  cases l with
  | nil => exact absurd rfl h
  | cons a t => rfl

theorem collect_sum (ids : List String) :
    ∀ ch, (collectResults ids ch).1 + (collectResults ids ch).2.1.length
      = ids.length := by
  induction ids with
  | nil => intro ch; simp [collectResults]
  | cons tid rest ih =>
      intro ch
      rcases eq_or_ne rest [] with hr | hr
      · subst hr
        cases h : (recv ch).1 <;> simp [collectResults, h]
      · have hre : rest.isEmpty = false := isEmpty_false_of_ne rest hr
        have hrec := ih ((recv (recv ch).2).2)
        cases h : (recv ch).1 <;> simp [collectResults, h, hre] <;> omega

theorem collect_sublist (ids : List String) :
    ∀ ch, (collectResults ids ch).2.1.Sublist ids := by
  induction ids with
  | nil => intro ch; simp [collectResults]
  | cons tid rest ih =>
      intro ch
      simp only [collectResults]
      cases h : (recv ch).1 with
      | none => exact List.Sublist.cons tid (ih _)
      | some e => exact List.Sublist.cons₂ tid (ih _)

theorem collect_recv_count (ids : List String) :
    ∀ ch, ids ≠ [] → (collectResults ids ch).2.2 = 2 * ids.length - 1 := by
  induction ids with
  | nil => intro ch h; exact absurd rfl h
  | cons tid rest ih =>
      intro ch _
      rcases eq_or_ne rest [] with hr | hr
      · subst hr
        cases h : (recv ch).1 <;> simp [collectResults, h]
      · have hre : rest.isEmpty = false := isEmpty_false_of_ne rest hr
        have hlen : 0 < rest.length := List.length_pos.mpr hr
        have hrec := ih ((recv (recv ch).2).2) hr
        cases h : (recv ch).1 <;> simp [collectResults, h, hre] <;> omega

theorem collect_length_bound (ids : List String) :
    ∀ ch, (collectResults ids ch).2.1.length ≤ (ch.length + 1) / 2 := by
  induction ids with
  | nil => intro ch; simp [collectResults]
  | cons tid rest ih =>
      intro ch
      rcases eq_or_ne rest [] with hr | hr
      · subst hr
        cases h : (recv ch).1 with
        | none => simp [collectResults, h]
        | some e =>
            have hchne : ch ≠ [] := by
              intro hc; subst hc; simp [recv] at h
            have hl1 : 0 < ch.length := List.length_pos.mpr hchne
            simp [collectResults, h]
            omega
      · have hre : rest.isEmpty = false := isEmpty_false_of_ne rest hr
        have hch2 : (recv (recv ch).2).2 = ch.drop 2 := by
          cases ch with
          | nil => simp [recv]
          | cons o t => cases t <;> simp [recv]
        have hb := ih (ch.drop 2)
        have hdl : (ch.drop 2).length = ch.length - 2 := by simp
        rw [hdl] at hb
        cases h : (recv ch).1 with
        | none =>
            simp [collectResults, h, hre, hch2]
            omega
        | some e =>
            have hchne : ch ≠ [] := by
              intro hc; subst hc; simp [recv] at h
            have hl1 : 0 < ch.length := List.length_pos.mpr hchne
            simp [collectResults, h, hre, hch2]
            omega

theorem collect_all_none (ids : List String) :
    ∀ ch, (∀ o ∈ ch, o = none) →
      (collectResults ids ch).1 = ids.length ∧
      (collectResults ids ch).2.1 = [] := by
  induction ids with
  | nil => intro ch _; simp [collectResults]
  | cons tid rest ih =>
      intro ch hch
      have hhead : (recv ch).1 = none := by
        rw [recv_eq]
        cases ch with
        | nil => simp [List.getD]
        | cons o t => exact hch o (by simp)
      have hsub : ∀ ch' : List (Option String),
          (∀ o ∈ ch', o = none) → ∀ o ∈ (recv ch').2, o = none := by
        intro ch' h o ho
        rw [recv_eq] at ho
        exact h o (List.mem_of_mem_tail ho)
      simp only [collectResults, hhead]
      have h2 : ∀ o ∈ (if rest.isEmpty then (recv ch).2
          else (recv (recv ch).2).2), o = none := by
        split
        · exact hsub ch hch
        · exact hsub _ (hsub ch hch)
      have := ih _ h2
      simp only [List.isEmpty_iff] at this
      simp [this.1, this.2]

theorem getD_drop_two (ch : List (Option String)) (k : Nat) :
    (ch.drop 2).getD k none = ch.getD (2 + k) none := by
  simp [List.getD_eq_getElem?_getD, List.getElem?_drop]

theorem collect_failed_positional (ids : List String) :
    ∀ ch, (collectResults ids ch).2.1 =
      (List.range ids.length).filterMap
        (fun i => if (ch.getD (2 * i) none).isSome then ids[i]? else none) := by
  induction ids with
  | nil => intro ch; simp [collectResults]
  | cons tid rest ih =>
      intro ch
      have hfst : (recv ch).1 = ch.getD 0 none := by rw [recv_eq]
      rcases eq_or_ne rest [] with hr | hr
      · subst hr
        cases h : ch[0]?.getD none with
        | none =>
            simp [collectResults, recv_eq, List.getD_eq_getElem?_getD, h,
              List.range_succ]
        | some e =>
            simp [collectResults, recv_eq, List.getD_eq_getElem?_getD, h,
              List.range_succ]
      · have hre : rest.isEmpty = false := isEmpty_false_of_ne rest hr
        have hch2 : (recv (recv ch).2).2 = ch.drop 2 := by
          cases ch with
          | nil => simp [recv]
          | cons o t => cases t <;> simp [recv]
        have hrec := ih (ch.drop 2)
        have hrhs :
            (List.range (tid :: rest).length).filterMap
              (fun i => if (ch.getD (2 * i) none).isSome
                then (tid :: rest)[i]? else none) =
            (if (ch.getD 0 none).isSome then [tid] else []) ++
              (List.range rest.length).filterMap
                (fun i => if ((ch.drop 2).getD (2 * i) none).isSome
                  then rest[i]? else none) := by
          rw [List.length_cons, List.range_succ_eq_map, List.filterMap_cons,
            List.filterMap_map]
          have hcg : ∀ i ∈ List.range rest.length,
              ((fun i => if (ch.getD (2 * i) none).isSome
                  then (tid :: rest)[i]? else none) ∘ Nat.succ) i =
              (fun i => if ((ch.drop 2).getD (2 * i) none).isSome
                  then rest[i]? else none) i := by
            intro i _
            have h2i : 2 * Nat.succ i = 2 + 2 * i := by omega
            simp only [Function.comp_apply, h2i, getD_drop_two,
              List.getElem?_cons_succ]
          rw [List.filterMap_congr hcg]
          cases h : ch.getD 0 none <;> simp [h]
        have hdt : ch.drop 2 = ch.tail.tail := by
          cases ch with
          | nil => rfl
          | cons a t => cases t <;> rfl
        rw [hrhs]
        cases h : ch[0]?.getD none with
        | none =>
            simp [collectResults, recv_eq, List.getD_eq_getElem?_getD, h, hre,
              hch2]
            rw [← hdt, hrec]
            simp [List.getD_eq_getElem?_getD, List.getElem?_drop]
        | some e =>
            simp [collectResults, recv_eq, List.getD_eq_getElem?_getD, h, hre,
              hch2]
            rw [← hdt, hrec]
            simp [List.getD_eq_getElem?_getD, List.getElem?_drop]

/-! Lemmas about the store operations and the worker phase. -/

/-- Pointwise effect of one bulk step on one store row: either untouched, or
owned by the caller and completed (status set to done, fresh update
timestamp, every other field preserved). -/
def rowStep (uid : Int) (now : Int) (a b : Task) : Prop :=
  b = a ∨ (a.userID = uid ∧
    b = { a with status := TaskStatus.done, updatedAt := now })

theorem rowStep_refl (uid now : Int) (a : Task) : rowStep uid now a a :=
  Or.inl rfl

theorem rowStep_trans {uid now : Int} {a b c : Task}
    (h1 : rowStep uid now a b) (h2 : rowStep uid now b c) :
    rowStep uid now a c := by
  rcases h1 with rfl | ⟨hu1, rfl⟩
  · exact h2
  · rcases h2 with rfl | ⟨hu2, rfl⟩
    · exact Or.inr ⟨hu1, rfl⟩
    · exact Or.inr ⟨hu1, rfl⟩

theorem rowStep_fields {uid now : Int} {a b : Task} (h : rowStep uid now a b) :
    b.id = a.id ∧ b.userID = a.userID ∧ b.title = a.title ∧
    b.description = a.description ∧ b.createdAt = a.createdAt ∧
    (b = a ∨ (b.status = TaskStatus.done ∧ b.updatedAt = now)) := by
  rcases h with rfl | ⟨hu, rfl⟩ <;> simp

theorem rowStep_of_done {uid now : Int} {a b : Task} (h : rowStep uid now a b)
    (hs : a.status = TaskStatus.done) (ht : a.updatedAt = now) :
    b.status = TaskStatus.done ∧ b.updatedAt = now := by
  rcases h with rfl | ⟨hu, rfl⟩
  · exact ⟨hs, ht⟩
  · simp

theorem rowStep_not_owned {uid now : Int} {a b : Task}
    (h : rowStep uid now a b) (hno : a.userID ≠ uid) : b = a := by
  rcases h with rfl | ⟨hu, rfl⟩
  · rfl
  · exact absurd hu hno

theorem FindByID_ok (store : List Task) (id : String) (t : Task)
    (h : FindByID store id = Except.ok t) :
    t ∈ store ∧ ∀ k, atoi id = some k → t.id = k := by
  cases ha : atoi id with
  | none => simp [FindByID, ha] at h
  | some k' =>
      cases hf : store.find? (fun row => row.id == k') with
      | none => simp [FindByID, ha, hf] at h
      | some task =>
          simp only [FindByID, ha, hf, Except.ok.injEq] at h
          subst h
          refine ⟨List.mem_of_find?_eq_some hf, ?_⟩
          intro k hk
          injection hk with hk
          subst hk
          have := List.find?_some hf
          simpa using this

theorem GetByID_ok (store : List Task) (taskID userID : String) (t : Task)
    (h : GetByID store taskID userID = Except.ok t) :
    t ∈ store ∧ (∀ k, atoi taskID = some k → t.id = k) ∧
      (∀ u, atoi userID = some u → t.userID = u) := by
  cases hu : atoi userID with
  | none => simp [GetByID, hu] at h
  | some u' =>
      cases hf : FindByID store taskID with
      | error e => simp [GetByID, hu, hf] at h
      | ok task =>
          by_cases hown : task.userID = u'
          · simp only [GetByID, hu, hf, hown, if_true, Except.ok.injEq] at h
            subst h
            have hfk := FindByID_ok store taskID task hf
            refine ⟨hfk.1, hfk.2, ?_⟩
            intro u hu2
            injection hu2 with hu2
            subst hu2
            exact hown
          · simp [GetByID, hu, hf, hown] at h

theorem find?_eq_of_mem_nodup (store : List Task) (k : Int)
    (hnd : (store.map Task.id).Nodup) (t : Task) (ht : t ∈ store)
    (hid : t.id = k) :
    store.find? (fun row => row.id == k) = some t := by
  induction store with
  | nil => cases ht
  | cons a rest ih =>
      rw [List.map_cons, List.nodup_cons] at hnd
      rcases List.mem_cons.mp ht with rfl | hmem
      · have hp : (t.id == k) = true := by simp [hid]
        simp [List.find?_cons, hp]
      · have hak : (a.id == k) = false := by
          simp only [beq_eq_false_iff_ne, ne_eq]
          intro hak
          apply hnd.1
          rw [hak, ← hid]
          exact List.mem_map_of_mem Task.id hmem
        simp [List.find?_cons, hak]
        exact ih hnd.2 hmem
theorem nodup_id_inj {store : List Task}
    (hnd : (store.map Task.id).Nodup) {a b : Task} (ha : a ∈ store)
    (hb : b ∈ store) (h : a.id = b.id) : a = b :=
  List.inj_on_of_nodup_map hnd ha hb h

theorem Update_length (store : List Task) (t : Task) :
    (Update store t).1.length = store.length := by
  by_cases hz : store.countP
      (fun row => row.id == t.id && row.userID == t.userID) = 0 <;>
    simp [Update, hz]

theorem Update_getElem (store : List Task) (t : Task) (j : Nat)
    (hj : j < store.length) (hj' : j < (Update store t).1.length) :
    (Update store t).1[j] =
      if (store[j].id == t.id && store[j].userID == t.userID) = true then
        { store[j] with title := t.title, description := t.description,
                        status := t.status, updatedAt := t.updatedAt }
      else store[j] := by
  by_cases hz : store.countP
      (fun row => row.id == t.id && row.userID == t.userID) = 0
  · have hp := List.countP_eq_zero.mp hz store[j] (List.getElem_mem hj)
    simp only [Bool.not_eq_true] at hp
    simp [Update, hz, hp]
  · simp [Update, hz, List.getElem_map]

theorem Update_map_id (store : List Task) (t : Task) :
    (Update store t).1.map Task.id = store.map Task.id := by
  by_cases hz : store.countP
      (fun row => row.id == t.id && row.userID == t.userID) = 0
  · simp [Update, hz]
  · simp only [Update, hz, if_neg, if_false]
    rw [List.map_map]
    apply List.map_congr_left
    intro a _
    simp only [Function.comp_apply]
    split <;> rfl

theorem Update_map_userID (store : List Task) (t : Task) :
    (Update store t).1.map Task.userID = store.map Task.userID := by
  by_cases hz : store.countP
      (fun row => row.id == t.id && row.userID == t.userID) = 0
  · simp [Update, hz]
  · simp only [Update, hz, if_neg, if_false]
    rw [List.map_map]
    apply List.map_congr_left
    intro a _
    simp only [Function.comp_apply]
    split <;> rfl

theorem processOne_store (userID : String) (uid now : Int)
    (store : List Task) (taskID : String) :
    (processOne userID uid now store taskID).1 = store ∨
    ∃ existing tidInt,
      GetByID store taskID userID = Except.ok existing ∧
      atoi taskID = some tidInt ∧
      (processOne userID uid now store taskID).1 =
        (Update store (mkDoneTask tidInt uid existing now)).1 := by
  cases hg : GetByID store taskID userID with
  | error e => left; simp [processOne, hg]
  | ok existing =>
      cases ha : atoi taskID with
      | none => left; simp [processOne, hg, ha]
      | some tidInt =>
          right
          refine ⟨existing, tidInt, rfl, rfl, ?_⟩
          cases hr : (Update store (mkDoneTask tidInt uid existing now)).2 <;>
            simp [processOne, hg, ha, hr]

theorem processOne_length (userID : String) (uid now : Int)
    (store : List Task) (taskID : String) :
    (processOne userID uid now store taskID).1.length = store.length := by
  rcases processOne_store userID uid now store taskID with h | ⟨e, k, _, _, h⟩
  · rw [h]
  · rw [h, Update_length]

theorem processOne_map_id (userID : String) (uid now : Int)
    (store : List Task) (taskID : String) :
    (processOne userID uid now store taskID).1.map Task.id
      = store.map Task.id := by
  rcases processOne_store userID uid now store taskID with h | ⟨e, k, _, _, h⟩
  · rw [h]
  · rw [h, Update_map_id]

theorem processOne_map_userID (userID : String) (uid now : Int)
    (store : List Task) (taskID : String) :
    (processOne userID uid now store taskID).1.map Task.userID
      = store.map Task.userID := by
  rcases processOne_store userID uid now store taskID with h | ⟨e, k, _, _, h⟩
  · rw [h]
  · rw [h, Update_map_userID]

theorem processOne_rowStep (userID : String) (uid now : Int)
    (store : List Task) (taskID : String)
    (hnd : (store.map Task.id).Nodup) (j : Nat) (hj : j < store.length)
    (hj' : j < (processOne userID uid now store taskID).1.length) :
    rowStep uid now store[j] (processOne userID uid now store taskID).1[j] := by
  rcases processOne_store userID uid now store taskID with h |
    ⟨existing, tidInt, hg, ha, h⟩
  · simp only [h]
    exact rowStep_refl uid now store[j]
  · have hj2 : j < (Update store (mkDoneTask tidInt uid existing now)).1.length := by
      rw [Update_length]; exact hj
    simp only [h]
    rw [Update_getElem store (mkDoneTask tidInt uid existing now) j hj hj2]
    split
    · next hcond =>
        simp only [mkDoneTask, Bool.and_eq_true, beq_iff_eq] at hcond
        have hgk := GetByID_ok store taskID userID existing hg
        have hexid : existing.id = tidInt := hgk.2.1 tidInt ha
        have hrow : store[j] = existing :=
          nodup_id_inj hnd (List.getElem_mem hj) hgk.1
            (by rw [hcond.1, hexid])
        right
        refine ⟨hcond.2, ?_⟩
        rw [← hrow]
        rfl
    · next hcond =>
        exact rowStep_refl uid now store[j]

theorem processOne_log_userID (userID : String) (uid now : Int)
    (store : List Task) (taskID : String) :
    ∀ u ∈ (processOne userID uid now store taskID).2.2, u.userID = uid := by
  cases hg : GetByID store taskID userID with
  | error e => simp [processOne, hg]
  | ok existing =>
      cases ha : atoi taskID with
      | none => simp [processOne, hg, ha]
      | some tidInt =>
          cases hr : (Update store (mkDoneTask tidInt uid existing now)).2 <;>
            · simp only [processOne, hg, ha, hr]
              simp [mkDoneTask]

theorem processOne_success (userID : String) (uid now : Int)
    (store : List Task) (taskID : String) (tidInt : Int)
    (hnd : (store.map Task.id).Nodup)
    (hu : atoi userID = some uid) (ha : atoi taskID = some tidInt)
    (j : Nat) (hj : j < store.length)
    (hid : store[j].id = tidInt) (hown : store[j].userID = uid) :
    (processOne userID uid now store taskID).2.1 = none ∧
    ∀ hj' : j < (processOne userID uid now store taskID).1.length,
      (processOne userID uid now store taskID).1[j] =
        { store[j] with status := TaskStatus.done, updatedAt := now } := by
  have hfind : store.find? (fun row => row.id == tidInt) = some store[j] :=
    find?_eq_of_mem_nodup store tidInt hnd store[j] (List.getElem_mem hj) hid
  have hF : FindByID store taskID = Except.ok store[j] := by
    simp [FindByID, ha, hfind]
  have hG : GetByID store taskID userID = Except.ok store[j] := by
    simp [GetByID, hu, hF, hown]
  have hcount : ¬ store.countP (fun row =>
      row.id == (mkDoneTask tidInt uid store[j] now).id &&
      row.userID == (mkDoneTask tidInt uid store[j] now).userID) = 0 := by
    intro hz
    have hcp := List.countP_eq_zero.mp hz store[j] (List.getElem_mem hj)
    simp [mkDoneTask, hid, hown] at hcp
  have hU2 : (Update store (mkDoneTask tidInt uid store[j] now)).2
      = Except.ok () := by
    simp [Update, hcount]
  constructor
  · simp [processOne, hG, ha, hU2]
  · intro hj'
    have hT : (processOne userID uid now store taskID).1 =
        (Update store (mkDoneTask tidInt uid store[j] now)).1 := by
      simp [processOne, hG, ha, hU2]
    have hj2 : j < (Update store (mkDoneTask tidInt uid store[j] now)).1.length := by
      rw [Update_length]; exact hj
    simp only [hT]
    rw [Update_getElem store (mkDoneTask tidInt uid store[j] now) j hj hj2]
    have hcond : (store[j].id == (mkDoneTask tidInt uid store[j] now).id &&
        store[j].userID == (mkDoneTask tidInt uid store[j] now).userID) = true := by
      simp [mkDoneTask, hid, hown]
    rw [if_pos hcond]
    rfl

theorem processAll_length (userID : String) (uid now : Int) :
    ∀ (order : List String) (store : List Task),
      (processAll userID uid now store order).1.length = store.length := by
  intro order
  induction order with
  | nil => intro store; rfl
  | cons taskID rest ih =>
      intro store
      simp only [processAll]
      rw [ih, processOne_length]

theorem processAll_outcomes_length (userID : String) (uid now : Int) :
    ∀ (order : List String) (store : List Task),
      (processAll userID uid now store order).2.1.length = order.length := by
  intro order
  induction order with
  | nil => intro store; rfl
  | cons taskID rest ih =>
      intro store
      simp only [processAll, List.length_cons]
      rw [ih]

theorem processAll_map_id (userID : String) (uid now : Int) :
    ∀ (order : List String) (store : List Task),
      (processAll userID uid now store order).1.map Task.id
        = store.map Task.id := by
  intro order
  induction order with
  | nil => intro store; rfl
  | cons taskID rest ih =>
      intro store
      simp only [processAll]
      rw [ih, processOne_map_id]

theorem processAll_map_userID (userID : String) (uid now : Int) :
    ∀ (order : List String) (store : List Task),
      (processAll userID uid now store order).1.map Task.userID
        = store.map Task.userID := by
  intro order
  induction order with
  | nil => intro store; rfl
  | cons taskID rest ih =>
      intro store
      simp only [processAll]
      rw [ih, processOne_map_userID]

theorem processAll_rowStep (userID : String) (uid now : Int) :
    ∀ (order : List String) (store : List Task),
      (store.map Task.id).Nodup →
      ∀ j (hj : j < store.length)
        (hj' : j < (processAll userID uid now store order).1.length),
        rowStep uid now store[j]
          (processAll userID uid now store order).1[j] := by
  intro order
  induction order with
  | nil =>
      intro store _ j hj hj'
      exact rowStep_refl uid now store[j]
  | cons taskID rest ih =>
      intro store hnd j hj hj'
      have hj1 : j < (processOne userID uid now store taskID).1.length := by
        rw [processOne_length]; exact hj
      have h1 := processOne_rowStep userID uid now store taskID hnd j hj hj1
      have hnd1 : ((processOne userID uid now store taskID).1.map Task.id).Nodup := by
        rw [processOne_map_id]; exact hnd
      have hj2 : j < (processAll userID uid now
          (processOne userID uid now store taskID).1 rest).1.length := by
        rw [processAll_length, processOne_length]; exact hj
      have h2 := ih (processOne userID uid now store taskID).1 hnd1 j hj1 hj2
      exact rowStep_trans h1 h2

theorem processAll_log_userID (userID : String) (uid now : Int) :
    ∀ (order : List String) (store : List Task),
      ∀ u ∈ (processAll userID uid now store order).2.2, u.userID = uid := by
  intro order
  induction order with
  | nil => intro store u hu; cases hu
  | cons taskID rest ih =>
      intro store u hu
      simp only [processAll, List.mem_append] at hu
      rcases hu with hu | hu
      · exact processOne_log_userID userID uid now store taskID u hu
      · exact ih _ u hu

theorem processAll_completes (userID : String) (uid now : Int) :
    ∀ (order : List String) (store : List Task),
      (store.map Task.id).Nodup → atoi userID = some uid →
      ∀ taskID ∈ order, ∀ tidInt, atoi taskID = some tidInt →
      ∀ j (hj : j < store.length), store[j].id = tidInt →
        store[j].userID = uid →
      ∀ hj' : j < (processAll userID uid now store order).1.length,
        (processAll userID uid now store order).1[j].status = TaskStatus.done ∧
        (processAll userID uid now store order).1[j].updatedAt = now ∧
        (processAll userID uid now store order).1[j].title = store[j].title ∧
        (processAll userID uid now store order).1[j].description
          = store[j].description ∧
        (processAll userID uid now store order).1[j].id = store[j].id ∧
        (processAll userID uid now store order).1[j].userID
          = store[j].userID := by
  intro order
  induction order with
  | nil =>
      intro store _ _ taskID hmem
      exact absurd hmem (List.not_mem_nil taskID)
  | cons head rest ih =>
      intro store hnd hu taskID hmem tidInt ha j hj hid hown hj'
      simp only [processAll]
      have hj1 : j < (processOne userID uid now store head).1.length := by
        rw [processOne_length]; exact hj
      have hnd1 : ((processOne userID uid now store head).1.map Task.id).Nodup := by
        rw [processOne_map_id]; exact hnd
      have hj2 : j < (processAll userID uid now
          (processOne userID uid now store head).1 rest).1.length := by
        rw [processAll_length, processOne_length]; exact hj
      rcases List.mem_cons.mp hmem with rfl | hmem'
      · have hsucc := (processOne_success userID uid now store taskID tidInt
          hnd hu ha j hj hid hown).2 hj1
        have hrs := processAll_rowStep userID uid now rest
          (processOne userID uid now store taskID).1 hnd1 j hj1 hj2
        have hdone := rowStep_of_done hrs (by rw [hsucc]) (by rw [hsucc])
        have hfld := rowStep_fields hrs
        refine ⟨hdone.1, hdone.2, ?_, ?_, ?_, ?_⟩
        · rw [hfld.2.2.1, hsucc]
        · rw [hfld.2.2.2.1, hsucc]
        · rw [hfld.1, hsucc]
        · rw [hfld.2.1, hsucc]
      · have h1 := processOne_rowStep userID uid now store head hnd j hj hj1
        have hf1 := rowStep_fields h1
        have hres := ih (processOne userID uid now store head).1 hnd1 hu
          taskID hmem' tidInt ha j hj1 (by rw [hf1.1, hid])
          (by rw [hf1.2.1, hown]) hj2
        refine ⟨hres.1, hres.2.1, ?_, ?_, ?_, ?_⟩
        · rw [hres.2.2.1, hf1.2.2.1]
        · rw [hres.2.2.2.1, hf1.2.2.2.1]
        · rw [hres.2.2.2.2.1, hf1.1]
        · rw [hres.2.2.2.2.2, hf1.2.1]

theorem rowStep_done {uid now : Int} {a b : Task} (h : rowStep uid now a b)
    (hs : a.status = TaskStatus.done) : b.status = TaskStatus.done := by
  rcases h with rfl | ⟨_, rfl⟩
  · exact hs
  · rfl

theorem processAll_outcomes_none (userID : String) (uid now : Int) :
    ∀ (order : List String) (store : List Task),
      (store.map Task.id).Nodup → atoi userID = some uid →
      (∀ taskID ∈ order, ∃ tidInt, atoi taskID = some tidInt ∧
        ∃ j, ∃ hj : j < store.length,
          store[j].id = tidInt ∧ store[j].userID = uid) →
      ∀ o ∈ (processAll userID uid now store order).2.1, o = none := by
  intro order
  induction order with
  | nil => intro store _ _ _ o ho; cases ho
  | cons head rest ih =>
      intro store hnd hu htgt o ho
      have hnd1 : ((processOne userID uid now store head).1.map Task.id).Nodup := by
        rw [processOne_map_id]; exact hnd
      simp only [processAll, List.mem_cons] at ho
      rcases ho with rfl | ho
      · obtain ⟨tidInt, ha, j, hj, hid, hown⟩ :=
          htgt head (List.mem_cons_self head rest)
        exact (processOne_success userID uid now store head tidInt hnd hu ha
          j hj hid hown).1
      · refine ih (processOne userID uid now store head).1 hnd1 hu ?_ o ho
        intro taskID hmem
        obtain ⟨tidInt, ha, j, hj, hid, hown⟩ :=
          htgt taskID (List.mem_cons_of_mem head hmem)
        have hj1 : j < (processOne userID uid now store head).1.length := by
          rw [processOne_length]; exact hj
        have hf := rowStep_fields
          (processOne_rowStep userID uid now store head hnd j hj hj1)
        exact ⟨tidInt, ha, j, hj1, by rw [hf.1, hid], by rw [hf.2.1, hown]⟩

theorem targets_preserved (userID : String) (uid now : Int)
    (order : List String) (store : List Task)
    (hnd : (store.map Task.id).Nodup) (taskIDs : List String)
    (htgt : ∀ taskID ∈ taskIDs, ∃ tidInt, atoi taskID = some tidInt ∧
      ∃ j, ∃ hj : j < store.length,
        store[j].id = tidInt ∧ store[j].userID = uid) :
    ∀ taskID ∈ taskIDs, ∃ tidInt, atoi taskID = some tidInt ∧
      ∃ j, ∃ hj : j < (processAll userID uid now store order).1.length,
        (processAll userID uid now store order).1[j].id = tidInt ∧
        (processAll userID uid now store order).1[j].userID = uid := by
  intro taskID hmem
  obtain ⟨tidInt, ha, j, hj, hid, hown⟩ := htgt taskID hmem
  have hj' : j < (processAll userID uid now store order).1.length := by
    rw [processAll_length]; exact hj
  have hf := rowStep_fields
    (processAll_rowStep userID uid now order store hnd j hj hj')
  exact ⟨tidInt, ha, j, hj', by rw [hf.1, hid], by rw [hf.2.1, hown]⟩

/-! Claim theorems. -/

/-- C2: for every bulk request that passes the whole-batch validity check
(non-empty taskIDs, parseable userID), the returned response satisfies
successCount + failedCount = len(taskIDs), failedCount is the length of
failedIDs, and failedIDs is a sublist of the input, so every input
identifier is accounted for in exactly one bucket. -/
theorem BulkComplete_accounting (store : List Task) (userID : String)
    (taskIDs order : List String) (now : Int) (uid : Int)
    (hne : taskIDs ≠ []) (hu : atoi userID = some uid) :
    ∃ resp : BulkCompleteResponse,
      (BulkComplete store userID taskIDs order now).1 = Except.ok resp ∧
      resp.successCount + resp.failedCount = taskIDs.length ∧
      resp.failedIDs.Sublist taskIDs ∧
      resp.failedCount = resp.failedIDs.length := by
  have hie := isEmpty_false_of_ne taskIDs hne
  have h1 : (BulkComplete store userID taskIDs order now).1 =
      Except.ok
        { successCount := (collectResults taskIDs
            (processAll userID uid now store order).2.1).1,
          failedCount := (collectResults taskIDs
            (processAll userID uid now store order).2.1).2.1.length,
          failedIDs := (collectResults taskIDs
            (processAll userID uid now store order).2.1).2.1 } := by
    simp [BulkComplete, hie, hu]
  exact ⟨_, h1, collect_sum taskIDs _, collect_sublist taskIDs _, rfl⟩

/-- C2 witness: a concrete run of the accounting theorem. -/
theorem BulkComplete_accounting_witness :
    ∃ resp : BulkCompleteResponse,
      (BulkComplete [] "1" ["1"] ["1"] 0).1 = Except.ok resp ∧
      resp.successCount + resp.failedCount = (["1"] : List String).length ∧
      resp.failedIDs.Sublist ["1"] ∧
      resp.failedCount = resp.failedIDs.length :=
  BulkComplete_accounting [] "1" ["1"] ["1"] 0 1 (by decide) (by decide)

/-- C3: against a results channel carrying exactly n outcomes and then
closed, the aggregation loop performs 2n-1 receives when n > 1; the
identifier at position i is a failure exactly when the (2i)-th received
value is an error; every position i with 2i >= n reads the closed channel's
zero value (so it is never a failure); hence failedCount is at most
ceil(n/2). -/
theorem collectResults_positional_behavior (ids : List String)
    (ch : List (Option String)) (hl : ch.length = ids.length)
    (hn : 1 < ids.length) :
    (collectResults ids ch).2.2 = 2 * ids.length - 1 ∧
    (collectResults ids ch).2.1 =
      (List.range ids.length).filterMap
        (fun i => if (ch.getD (2 * i) none).isSome then ids[i]? else none) ∧
    (∀ i, i < ids.length → ids.length ≤ 2 * i → ch.getD (2 * i) none = none) ∧
    (collectResults ids ch).2.1.length ≤ (ids.length + 1) / 2 := by
  refine ⟨collect_recv_count ids ch ?_, collect_failed_positional ids ch,
    ?_, ?_⟩
  · intro h
    subst h
    simp at hn
  · intro i _ h2i
    apply List.getD_eq_default
    rw [hl]
    exact h2i
  · have hb := collect_length_bound ids ch
    rw [hl] at hb
    exact hb

/-- C3 witness: two identifiers, the error outcome arriving second; three
receives happen, the failure positions follow the positional formula, and
the failure bucket stays within the ceiling bound. -/
theorem collectResults_positional_behavior_witness :
    (collectResults ["a", "b"] [none, some "e"]).2.2 = 2 * 2 - 1 ∧
    (collectResults ["a", "b"] [none, some "e"]).2.1 =
      (List.range 2).filterMap
        (fun i => if (([none, some "e"] :
            List (Option String)).getD (2 * i) none).isSome
          then (["a", "b"] : List String)[i]? else none) ∧
    (∀ i, i < 2 → 2 ≤ 2 * i →
      ([none, some "e"] : List (Option String)).getD (2 * i) none = none) ∧
    (collectResults ["a", "b"] [none, some "e"]).2.1.length ≤ (2 + 1) / 2 := by
  have h := collectResults_positional_behavior ["a", "b"] [none, some "e"]
    (by decide) (by decide)
  simpa using h

/-- C6: BulkComplete returns a whole-batch error exactly when taskIDs is
empty or the userID does not parse; in that case the store is untouched;
otherwise it returns a result and never an error, per-item failures being
absorbed into the result. -/
theorem BulkComplete_whole_batch_error_iff (store : List Task)
    (userID : String) (taskIDs order : List String) (now : Int) :
    ((∃ e, (BulkComplete store userID taskIDs order now).1 = Except.error e)
      ↔ (taskIDs = [] ∨ atoi userID = none)) ∧
    ((taskIDs = [] ∨ atoi userID = none) →
      (BulkComplete store userID taskIDs order now).2 = store) ∧
    (∀ uid : Int, taskIDs ≠ [] → atoi userID = some uid →
      ∃ resp, (BulkComplete store userID taskIDs order now).1
        = Except.ok resp) := by
  rcases eq_or_ne taskIDs [] with he | he
  · subst he
    refine ⟨?_, ?_, ?_⟩
    · simp [BulkComplete]
    · intro _; simp [BulkComplete]
    · intro uid hne _; exact absurd rfl hne
  · have hie := isEmpty_false_of_ne taskIDs he
    cases hu : atoi userID with
    | none =>
        refine ⟨?_, ?_, ?_⟩
        · simp [BulkComplete, hie, hu, he]
        · intro _; simp [BulkComplete, hie, hu]
        · intro uid _ hu2; cases hu2
    | some uid =>
        refine ⟨?_, ?_, ?_⟩
        · simp [BulkComplete, hie, hu, he]
        · intro h
          rcases h with h | h
          · exact absurd h he
          · cases h
        · intro uid2 _ _
          refine ⟨⟨(collectResults taskIDs
              (processAll userID uid now store order).2.1).1,
            (collectResults taskIDs
              (processAll userID uid now store order).2.1).2.1.length,
            (collectResults taskIDs
              (processAll userID uid now store order).2.1).2.1⟩, ?_⟩
          simp [BulkComplete, hie, hu]

/-- C6 witness: the empty-input case produces the whole-batch error with the
store untouched, at a concrete input. -/
theorem BulkComplete_whole_batch_error_iff_witness :
    ((∃ e, (BulkComplete [] "7" [] ["x"] 3).1 = Except.error e)
      ↔ (([] : List String) = [] ∨ atoi "7" = none)) ∧
    ((([] : List String) = [] ∨ atoi "7" = none) →
      (BulkComplete [] "7" [] ["x"] 3).2 = []) ∧
    (∀ uid : Int, ([] : List String) ≠ [] → atoi "7" = some uid →
      ∃ resp, (BulkComplete [] "7" [] ["x"] 3).1 = Except.ok resp) :=
  BulkComplete_whole_batch_error_iff [] "7" [] ["x"] 3

/-- C4: every identifier that resolves to an existing task owned by the
requesting user has its task completed by the call: afterwards the status is
done, updated_at equals the in-call timestamp and is strictly greater than
the pre-call value, and title and description are unchanged.  (In the model
the ownership-checked update of such a row always succeeds, so the
update-success proviso of the claim is subsumed.) -/
theorem BulkComplete_completes_owned_tasks (store : List Task)
    (userID : String) (uid now : Int) (taskIDs order : List String)
    (taskID : String) (tidInt : Int) (j : Nat)
    (hnd : (store.map Task.id).Nodup)
    (hu : atoi userID = some uid)
    (hperm : order.Perm taskIDs)
    (hmem : taskID ∈ taskIDs)
    (ha : atoi taskID = some tidInt)
    (hj : j < store.length)
    (hid : store[j].id = tidInt) (hown : store[j].userID = uid)
    (hclock : store[j].updatedAt < now) :
    ∃ hj' : j < (BulkComplete store userID taskIDs order now).2.length,
      (BulkComplete store userID taskIDs order now).2[j].status
          = TaskStatus.done ∧
      (BulkComplete store userID taskIDs order now).2[j].updatedAt = now ∧
      store[j].updatedAt
        < (BulkComplete store userID taskIDs order now).2[j].updatedAt ∧
      (BulkComplete store userID taskIDs order now).2[j].title
        = store[j].title ∧
      (BulkComplete store userID taskIDs order now).2[j].description
        = store[j].description ∧
      (BulkComplete store userID taskIDs order now).2[j].id = store[j].id := by
  have hne : taskIDs ≠ [] := by
    intro h
    subst h
    exact absurd hmem (List.not_mem_nil taskID)
  have hie := isEmpty_false_of_ne taskIDs hne
  have hmem2 : taskID ∈ order := hperm.mem_iff.mpr hmem
  have hstore : (BulkComplete store userID taskIDs order now).2 =
      (processAll userID uid now store order).1 := by
    simp [BulkComplete, hie, hu]
  have hj' : j < (processAll userID uid now store order).1.length := by
    rw [processAll_length]
    exact hj
  have hc := processAll_completes userID uid now order store hnd hu taskID
    hmem2 tidInt ha j hj hid hown hj'
  rw [hstore]
  refine ⟨hj', hc.1, hc.2.1, ?_, hc.2.2.1, hc.2.2.2.1, hc.2.2.2.2.1⟩
  rw [hc.2.1]
  exact hclock

/-- C4 witness: one owned task, completed with a strictly newer timestamp
and unchanged title and description. -/
theorem BulkComplete_completes_owned_tasks_witness :
    ∃ hj' : 0 < (BulkComplete [⟨1, 1, "t", "d", TaskStatus.todo, 0, 0⟩]
        "1" ["1"] ["1"] 5).2.length,
      (BulkComplete [⟨1, 1, "t", "d", TaskStatus.todo, 0, 0⟩]
          "1" ["1"] ["1"] 5).2[0].status = TaskStatus.done ∧
      (BulkComplete [⟨1, 1, "t", "d", TaskStatus.todo, 0, 0⟩]
          "1" ["1"] ["1"] 5).2[0].updatedAt = 5 ∧
      ([⟨1, 1, "t", "d", TaskStatus.todo, 0, 0⟩] :
          List Task)[0].updatedAt
        < (BulkComplete [⟨1, 1, "t", "d", TaskStatus.todo, 0, 0⟩]
            "1" ["1"] ["1"] 5).2[0].updatedAt ∧
      (BulkComplete [⟨1, 1, "t", "d", TaskStatus.todo, 0, 0⟩]
          "1" ["1"] ["1"] 5).2[0].title
        = ([⟨1, 1, "t", "d", TaskStatus.todo, 0, 0⟩] : List Task)[0].title ∧
      (BulkComplete [⟨1, 1, "t", "d", TaskStatus.todo, 0, 0⟩]
          "1" ["1"] ["1"] 5).2[0].description
        = ([⟨1, 1, "t", "d", TaskStatus.todo, 0, 0⟩] :
            List Task)[0].description ∧
      (BulkComplete [⟨1, 1, "t", "d", TaskStatus.todo, 0, 0⟩]
          "1" ["1"] ["1"] 5).2[0].id
        = ([⟨1, 1, "t", "d", TaskStatus.todo, 0, 0⟩] : List Task)[0].id :=
  BulkComplete_completes_owned_tasks
    [⟨1, 1, "t", "d", TaskStatus.todo, 0, 0⟩] "1" 1 5 ["1"] ["1"] "1" 1 0
    (by decide) (by decide) (List.Perm.refl ["1"]) (by decide) (by decide)
    (by decide) (by decide) (by decide) (by decide)

/-- C5: during BulkComplete no task owned by a different user is written:
every row whose owner differs from the requesting user is bit-for-bit
unchanged after the call, and every update call issued by a worker targets
rows of the requesting user only (the ownership check precedes any mutation
attempt). -/
theorem BulkComplete_not_owned_unmodified (store : List Task)
    (userID : String) (uid now : Int) (taskIDs order : List String)
    (hnd : (store.map Task.id).Nodup) (hu : atoi userID = some uid)
    (hne : taskIDs ≠ []) :
    (BulkComplete store userID taskIDs order now).2.length = store.length ∧
    (∀ j (hj : j < store.length)
       (hj' : j < (BulkComplete store userID taskIDs order now).2.length),
       store[j].userID ≠ uid →
       (BulkComplete store userID taskIDs order now).2[j] = store[j]) ∧
    (∀ u ∈ (processAll userID uid now store order).2.2, u.userID = uid) := by
  have hie := isEmpty_false_of_ne taskIDs hne
  have hstore : (BulkComplete store userID taskIDs order now).2 =
      (processAll userID uid now store order).1 := by
    simp [BulkComplete, hie, hu]
  refine ⟨by rw [hstore, processAll_length], ?_,
    processAll_log_userID userID uid now order store⟩
  intro j hj hj' hno
  have hj2 : j < (processAll userID uid now store order).1.length := by
    rw [processAll_length]
    exact hj
  have hrs := processAll_rowStep userID uid now order store hnd j hj hj2
  have hfix := rowStep_not_owned hrs hno
  simp only [hstore]
  exact hfix

/-- C5 witness: a store holding one task of user 2; user 1's bulk call
leaves it untouched and issues only updates scoped to user 1 (here none). -/
theorem BulkComplete_not_owned_unmodified_witness :
    (BulkComplete [⟨1, 2, "t", "d", TaskStatus.todo, 0, 0⟩]
        "1" ["1"] ["1"] 5).2.length
      = ([⟨1, 2, "t", "d", TaskStatus.todo, 0, 0⟩] : List Task).length ∧
    (∀ j (hj : j < ([⟨1, 2, "t", "d", TaskStatus.todo, 0, 0⟩] :
          List Task).length)
       (hj' : j < (BulkComplete [⟨1, 2, "t", "d", TaskStatus.todo, 0, 0⟩]
          "1" ["1"] ["1"] 5).2.length),
       ([⟨1, 2, "t", "d", TaskStatus.todo, 0, 0⟩] :
          List Task)[j].userID ≠ 1 →
       (BulkComplete [⟨1, 2, "t", "d", TaskStatus.todo, 0, 0⟩]
          "1" ["1"] ["1"] 5).2[j]
         = ([⟨1, 2, "t", "d", TaskStatus.todo, 0, 0⟩] : List Task)[j]) ∧
    (∀ u ∈ (processAll "1" 1 5 [⟨1, 2, "t", "d", TaskStatus.todo, 0, 0⟩]
        ["1"]).2.2, u.userID = 1) :=
  BulkComplete_not_owned_unmodified
    [⟨1, 2, "t", "d", TaskStatus.todo, 0, 0⟩] "1" 1 5 ["1"] ["1"]
    (by decide) (by decide) (by decide)

/-- C8: when every requested identifier parses and resolves to a task owned
by the caller, the first call reports all identifiers as successes, the
second call over the same identifiers reports them all as successes again,
and afterwards every requested task still has status done. -/
theorem BulkComplete_idempotent_on_success (store : List Task)
    (userID : String) (uid now1 now2 : Int)
    (taskIDs order1 order2 : List String)
    (hnd : (store.map Task.id).Nodup) (hu : atoi userID = some uid)
    (hne : taskIDs ≠ [])
    (hp1 : order1.Perm taskIDs) (hp2 : order2.Perm taskIDs)
    (htgt : ∀ taskID ∈ taskIDs, ∃ tidInt, atoi taskID = some tidInt ∧
      ∃ j, ∃ hj : j < store.length,
        store[j].id = tidInt ∧ store[j].userID = uid) :
    (BulkComplete store userID taskIDs order1 now1).1
      = Except.ok ⟨taskIDs.length, 0, []⟩ ∧
    (BulkComplete (BulkComplete store userID taskIDs order1 now1).2 userID
        taskIDs order2 now2).1 = Except.ok ⟨taskIDs.length, 0, []⟩ ∧
    (∀ taskID ∈ taskIDs, ∀ tidInt, atoi taskID = some tidInt →
      ∃ t ∈ (BulkComplete (BulkComplete store userID taskIDs order1 now1).2
          userID taskIDs order2 now2).2,
        t.id = tidInt ∧ t.status = TaskStatus.done) := by
  have hie := isEmpty_false_of_ne taskIDs hne
  have hstore1 : (BulkComplete store userID taskIDs order1 now1).2 =
      (processAll userID uid now1 store order1).1 := by
    simp [BulkComplete, hie, hu]
  have htgtO1 : ∀ taskID ∈ order1, ∃ tidInt, atoi taskID = some tidInt ∧
      ∃ j, ∃ hj : j < store.length,
        store[j].id = tidInt ∧ store[j].userID = uid :=
    fun taskID hm => htgt taskID (hp1.subset hm)
  have hnone1 := processAll_outcomes_none userID uid now1 order1 store hnd hu
    htgtO1
  have hcol1 := collect_all_none taskIDs
    (processAll userID uid now1 store order1).2.1 hnone1
  have h1 : (BulkComplete store userID taskIDs order1 now1).1
      = Except.ok ⟨taskIDs.length, 0, []⟩ := by
    simp only [BulkComplete, hie, Bool.false_eq_true, if_false, hu]
    rw [hcol1.1, hcol1.2]
    rfl
  have hnd1 : (((processAll userID uid now1 store order1).1).map Task.id).Nodup := by
    rw [processAll_map_id]
    exact hnd
  have htgt1 := targets_preserved userID uid now1 order1 store hnd taskIDs htgt
  have htgtO2 : ∀ taskID ∈ order2, ∃ tidInt, atoi taskID = some tidInt ∧
      ∃ j, ∃ hj : j < (processAll userID uid now1 store order1).1.length,
        (processAll userID uid now1 store order1).1[j].id = tidInt ∧
        (processAll userID uid now1 store order1).1[j].userID = uid :=
    fun taskID hm => htgt1 taskID (hp2.subset hm)
  have hnone2 := processAll_outcomes_none userID uid now2 order2
    (processAll userID uid now1 store order1).1 hnd1 hu htgtO2
  have hcol2 := collect_all_none taskIDs
    (processAll userID uid now2
      (processAll userID uid now1 store order1).1 order2).2.1 hnone2
  have h2 : (BulkComplete (processAll userID uid now1 store order1).1 userID
      taskIDs order2 now2).1 = Except.ok ⟨taskIDs.length, 0, []⟩ := by
    simp only [BulkComplete, hie, Bool.false_eq_true, if_false, hu]
    rw [hcol2.1, hcol2.2]
    rfl
  have hstore2 : (BulkComplete (processAll userID uid now1 store order1).1
      userID taskIDs order2 now2).2 =
      (processAll userID uid now2
        (processAll userID uid now1 store order1).1 order2).1 := by
    simp [BulkComplete, hie, hu]
  refine ⟨h1, by rw [hstore1]; exact h2, ?_⟩
  intro taskID hmem tidInt ha
  obtain ⟨tidInt2, ha2, j, hj, hid, hown⟩ := htgt taskID hmem
  have htid : tidInt2 = tidInt := by
    rw [ha] at ha2
    injection ha2 with h
    exact h.symm
  rw [htid] at hid
  have hm1 : taskID ∈ order1 := hp1.mem_iff.mpr hmem
  have hj1 : j < (processAll userID uid now1 store order1).1.length := by
    rw [processAll_length]
    exact hj
  have hc1 := processAll_completes userID uid now1 order1 store hnd hu taskID
    hm1 tidInt ha j hj hid hown hj1
  have hj2 : j < (processAll userID uid now2
      (processAll userID uid now1 store order1).1 order2).1.length := by
    rw [processAll_length]
    exact hj1
  have hrs2 := processAll_rowStep userID uid now2 order2
    (processAll userID uid now1 store order1).1 hnd1 j hj1 hj2
  have hdone2 := rowStep_done hrs2 hc1.1
  have hfld2 := rowStep_fields hrs2
  rw [hstore1]
  simp only [hstore2]
  refine ⟨(processAll userID uid now2
      (processAll userID uid now1 store order1).1 order2).1[j],
    List.getElem_mem hj2, ?_, hdone2⟩
  rw [hfld2.1, hc1.2.2.2.2.1, hid]

/-- C8 witness: one owned task, completed twice; both calls report full
success and the task ends (and stays) done. -/
theorem BulkComplete_idempotent_on_success_witness :
    (BulkComplete [⟨1, 1, "t", "d", TaskStatus.todo, 0, 0⟩]
        "1" ["1"] ["1"] 5).1
      = Except.ok ⟨(["1"] : List String).length, 0, []⟩ ∧
    (BulkComplete (BulkComplete [⟨1, 1, "t", "d", TaskStatus.todo, 0, 0⟩]
        "1" ["1"] ["1"] 5).2 "1" ["1"] ["1"] 9).1
      = Except.ok ⟨(["1"] : List String).length, 0, []⟩ ∧
    (∀ taskID ∈ (["1"] : List String), ∀ tidInt : Int,
      atoi taskID = some tidInt →
      ∃ t ∈ (BulkComplete (BulkComplete
          [⟨1, 1, "t", "d", TaskStatus.todo, 0, 0⟩]
          "1" ["1"] ["1"] 5).2 "1" ["1"] ["1"] 9).2,
        t.id = tidInt ∧ t.status = TaskStatus.done) :=
  BulkComplete_idempotent_on_success
    [⟨1, 1, "t", "d", TaskStatus.todo, 0, 0⟩] "1" 1 5 9 ["1"] ["1"] ["1"]
    (by decide) (by decide) (by decide)
    (List.Perm.refl ["1"]) (List.Perm.refl ["1"])
    (by
      intro taskID hm
      have h1 : taskID = "1" := by simpa using hm
      subst h1
      exact ⟨1, by decide, 0, by decide, by decide, by decide⟩)

/-- C9: the worker pool size is the constant 5 for every request — it does
not grow with the number of submitted identifiers — and before any result
is produced the aggregation step holds the complete outcome list with
exactly one outcome per submitted identifier, from which the returned
response is computed. -/
theorem BulkComplete_worker_pool_bounded (store : List Task)
    (userID : String) (uid now : Int) (taskIDs order : List String)
    (hu : atoi userID = some uid) (hperm : order.Perm taskIDs)
    (hne : taskIDs ≠ []) :
    numWorkersFor taskIDs = 5 ∧
    (∀ other : List String, numWorkersFor taskIDs = numWorkersFor other) ∧
    (processAll userID uid now store order).2.1.length = taskIDs.length ∧
    (BulkComplete store userID taskIDs order now).1 =
      Except.ok
        ⟨(collectResults taskIDs
            (processAll userID uid now store order).2.1).1,
         (collectResults taskIDs
            (processAll userID uid now store order).2.1).2.1.length,
         (collectResults taskIDs
            (processAll userID uid now store order).2.1).2.1⟩ := by
  have hie := isEmpty_false_of_ne taskIDs hne
  refine ⟨rfl, fun other => rfl, ?_, by simp [BulkComplete, hie, hu]⟩
  rw [processAll_outcomes_length]
  exact hperm.length_eq

/-- C9 witness: a concrete three-identifier request still uses five
workers and aggregates exactly three outcomes. -/
theorem BulkComplete_worker_pool_bounded_witness :
    numWorkersFor ["1", "2", "3"] = 5 ∧
    (∀ other : List String,
      numWorkersFor ["1", "2", "3"] = numWorkersFor other) ∧
    (processAll "1" 1 4 [] ["1", "2", "3"]).2.1.length
      = (["1", "2", "3"] : List String).length ∧
    (BulkComplete [] "1" ["1", "2", "3"] ["1", "2", "3"] 4).1 =
      Except.ok
        ⟨(collectResults ["1", "2", "3"]
            (processAll "1" 1 4 [] ["1", "2", "3"]).2.1).1,
         (collectResults ["1", "2", "3"]
            (processAll "1" 1 4 [] ["1", "2", "3"]).2.1).2.1.length,
         (collectResults ["1", "2", "3"]
            (processAll "1" 1 4 [] ["1", "2", "3"]).2.1).2.1⟩ :=
  BulkComplete_worker_pool_bounded [] "1" 1 4 ["1", "2", "3"] ["1", "2", "3"]
    (by decide) (List.Perm.refl ["1", "2", "3"]) (by decide)

/-- C10: the results channel is buffered with capacity len(taskIDs) and
receives exactly that many sends, so no worker ever blocks on a send;
receiving from the closed, drained channel yields the zero value
immediately; and every valid call returns a well-formed response whose
buckets cover the whole input. -/
theorem BulkComplete_no_blocking (store : List Task) (userID : String)
    (uid now : Int) (taskIDs order : List String)
    (hne : taskIDs ≠ []) (hu : atoi userID = some uid)
    (hperm : order.Perm taskIDs) :
    (processAll userID uid now store order).2.1.length
      = resultsChanCapacity taskIDs ∧
    recv [] = (none, []) ∧
    ∃ resp : BulkCompleteResponse,
      (BulkComplete store userID taskIDs order now).1 = Except.ok resp ∧
      resp.successCount + resp.failedCount = taskIDs.length := by
  have hie := isEmpty_false_of_ne taskIDs hne
  refine ⟨?_, rfl,
    ⟨⟨(collectResults taskIDs
        (processAll userID uid now store order).2.1).1,
      (collectResults taskIDs
        (processAll userID uid now store order).2.1).2.1.length,
      (collectResults taskIDs
        (processAll userID uid now store order).2.1).2.1⟩,
     by simp [BulkComplete, hie, hu], collect_sum taskIDs _⟩⟩
  rw [processAll_outcomes_length, resultsChanCapacity]
  exact hperm.length_eq

/-- C10 witness: a concrete two-identifier request fills the channel to
exactly its capacity and returns a response covering both identifiers. -/
theorem BulkComplete_no_blocking_witness :
    (processAll "2" 2 7 [] ["4", "5"]).2.1.length
      = resultsChanCapacity ["4", "5"] ∧
    recv [] = (none, []) ∧
    ∃ resp : BulkCompleteResponse,
      (BulkComplete [] "2" ["4", "5"] ["4", "5"] 7).1 = Except.ok resp ∧
      resp.successCount + resp.failedCount
        = (["4", "5"] : List String).length :=
  BulkComplete_no_blocking [] "2" 2 7 ["4", "5"] ["4", "5"]
    (by decide) (by decide) (List.Perm.refl ["4", "5"])

/-- C1 (code bug): user 1 owns task 1; the request [1, 2] contains the
nonexistent task 2, whose processing fails and whose failure outcome is
sent on the channel — yet the aggregation loop, consuming two receives per
position, reports two successes and an empty failure list, so the failure
is never associated back to identifier 2, while task 1 is updated. -/
theorem BulkComplete_misattributes_failures :
    ((processAll "1" 1 9 [⟨1, 1, "a", "b", TaskStatus.todo, 0, 0⟩]
        ["1", "2"]).2.1.getD 1 none).isSome = true ∧
    (BulkComplete [⟨1, 1, "a", "b", TaskStatus.todo, 0, 0⟩] "1"
        ["1", "2"] ["1", "2"] 9).1 = Except.ok ⟨2, 0, []⟩ ∧
    (BulkComplete [⟨1, 1, "a", "b", TaskStatus.todo, 0, 0⟩] "1"
        ["1", "2"] ["1", "2"] 9).2 =
      [⟨1, 1, "a", "b", TaskStatus.done, 0, 9⟩] :=
  ⟨rfl, rfl, rfl⟩

/-- C7 (code bug): identifier "12x" fails numeric coercion; the worker
records a per-item failure outcome and the batch still succeeds with the
other identifier processed to completion — but the aggregation loop never
attributes the failure to "12x": the response counts both identifiers as
successes and reports no failed IDs. -/
theorem BulkComplete_coercion_failure_misattributed :
    atoi "12x" = none ∧
    ((processAll "7" 7 5 [⟨3, 7, "t", "d", TaskStatus.todo, 0, 0⟩]
        ["3", "12x"]).2.1.getD 1 none).isSome = true ∧
    (BulkComplete [⟨3, 7, "t", "d", TaskStatus.todo, 0, 0⟩] "7"
        ["3", "12x"] ["3", "12x"] 5).1 = Except.ok ⟨2, 0, []⟩ ∧
    (BulkComplete [⟨3, 7, "t", "d", TaskStatus.todo, 0, 0⟩] "7"
        ["3", "12x"] ["3", "12x"] 5).2 =
      [⟨3, 7, "t", "d", TaskStatus.done, 0, 5⟩] :=
  ⟨rfl, rfl, rfl, rfl⟩


end TaskManager
